import Mathlib

/-!
Verification development for the fragment-stitching / pyramidal-TIFF-export
repository.  The Python sources under `src/` are shallowly embedded below:

* `src/core/fragment_manager.py`  → `FragmentManager` and its operations
* `src/core/group_manager.py`     → `GroupManager` and its operations
* `src/utils/pyramidal_exporter.py` → the `PyramidalExporter` pipeline
  (`export_pyramidal_tiff`, `_export_with_tifffile_corrected`,
  `_calculate_composite_bounds_at_level_corrected`,
  `_calculate_transformed_dimensions`, `_render_composite_at_level_corrected`,
  `_composite_fragment_corrected`, `_save_pyramidal_tiff`, `_rgba_to_rgb`).

Python floats are modelled as exact rationals (ℚ); `uint8` stores are modelled
with the exact value clipped to `[0,255]` and truncated (`numpy.astype(uint8)`
truncates toward zero, which is `Int.floor` on the clipped non-negative value).
Transcendental library calls (`math.cos`/`math.sin` composed with
`math.radians`) are modelled by a `TrigOracle`: a pair of functions from the
angle in degrees to the returned value; theorems that depend on actual
trigonometry constrain the oracle by equations against `Real.cos`/`Real.sin`.

The repository files `src/core/fragment.py` and `src/core/image_loader.py` are
not present in the sources; the `Fragment` record and its bounding box are
modelled from the spec (§3, §4.1), and the image reader is an abstract
environment function, per the spec's "Pyramidal Image Reader" contract (§6).
-/

namespace Stitcher

/-- A fragment's pose and metadata.  Modelled from the spec: `fragment.py` is
absent from the sources; fields follow spec §3 ("Fragment — one placed image
instance").  Floats are exact rationals. -/
structure Fragment where
  id : String
  name : String
  filePath : String
  x : ℚ
  y : ℚ
  rotation : ℚ
  flipHorizontal : Bool
  flipVertical : Bool
  visible : Bool
  opacity : ℚ
  origW : ℚ
  origH : ℚ
  selected : Bool
deriving DecidableEq

/-- Model of `math.cos(math.radians d)` / `math.sin(math.radians d)`: a pair of
functions from an angle in degrees to the value the float library returns.
Theorems constrain an oracle pointwise by equations against `Real.cos` /
`Real.sin` where the claim depends on real trigonometry. -/
structure TrigOracle where
  cos : ℚ → ℚ
  sin : ℚ → ℚ

/-- Python's `%` on floats with a positive modulus: `a - b * ⌊a / b⌋`. -/
def pyMod (a b : ℚ) : ℚ := a - b * ⌊a / b⌋

/-- Python's `int()` conversion: truncation toward zero. -/
def pyInt (q : ℚ) : ℤ := if 0 ≤ q then ⌊q⌋ else ⌈q⌉

/-- Modelled from the spec (§4.1, `fragment.py` absent): the width/height of
`get_bounding_box` for a fragment with the given rotation (degrees) and
original size.  Near-zero rotation (< 0.01°) keeps the original size;
otherwise the standard rotated-rectangle bound with the oracle standing for
cos/sin of the rotation.  The spec's invariant (§3) that the cached box is
always consistent with the current rotation/flip lets the cache be folded
into a pure function. -/
def bbDims (t : TrigOracle) (rotation w h : ℚ) : ℚ × ℚ :=
  if |rotation| < 1/100 then (w, h)
  else (|w * t.cos rotation| + |h * t.sin rotation|,
        |w * t.sin rotation| + |h * t.cos rotation|)

/-- Modelled from the spec (§4.1): `Fragment.get_bounding_box`, returning
`(x, y, w, h)` in level-0 space. -/
def getBoundingBox (t : TrigOracle) (f : Fragment) : ℚ × ℚ × ℚ × ℚ :=
  (f.x, f.y, (bbDims t f.rotation f.origW f.origH).1,
   (bbDims t f.rotation f.origW f.origH).2)

/-- The center of a fragment's bounding box: `bbox[0] + bbox[2]/2`,
`bbox[1] + bbox[3]/2` (used by `apply_group_rotation` and
`GroupManager._calculate_group_center`). -/
def fragCenter (t : TrigOracle) (f : Fragment) : ℚ × ℚ :=
  (f.x + (bbDims t f.rotation f.origW f.origH).1 / 2,
   f.y + (bbDims t f.rotation f.origW f.origH).2 / 2)

/-- `FragmentManager`'s state (`fragment_manager.py`): the registry dict (a
Python dict is insertion ordered with unique keys, modelled as a list), the
single-selection id and the group-selection list. -/
structure FragmentManager where
  fragments : List Fragment
  selectedFragmentId : Option String
  groupSelection : List String
deriving DecidableEq

/-- The registry of a fresh `FragmentManager` (`__init__`). -/
def initManager : FragmentManager := ⟨[], none, []⟩

/-- Dict lookup `self._fragments.get(fid)` / `self._fragments[fid]`. -/
def findFragment (fm : FragmentManager) (fid : String) : Option Fragment :=
  fm.fragments.find? (fun f => f.id == fid)

/-- Membership test `fid in self._fragments`. -/
def containsId (fm : FragmentManager) (fid : String) : Bool :=
  (findFragment fm fid).isSome

/-- `FragmentManager._clear_all_selections`. -/
def clearAllSelections (fm : FragmentManager) : FragmentManager :=
  { fragments := fm.fragments.map (fun f => { f with selected := false }),
    selectedFragmentId := none,
    groupSelection := [] }

/-- `FragmentManager.select_single_fragment`. -/
def selectSingleFragment (fid : String) (fm : FragmentManager) : FragmentManager :=
  let fm1 := clearAllSelections fm
  if containsId fm1 fid then
    { fm1 with
      selectedFragmentId := some fid,
      fragments := fm1.fragments.map (fun f => if f.id == fid then { f with selected := true } else f) }
  else fm1

/-- `FragmentManager.select_group`. -/
def selectGroup (ids : List String) (fm : FragmentManager) : FragmentManager :=
  let fm1 := clearAllSelections fm
  let valid := ids.filter (fun fid => containsId fm1 fid)
  if 1 < valid.length then
    { fm1 with
      groupSelection := valid,
      fragments := fm1.fragments.map (fun f => if valid.contains f.id then { f with selected := true } else f) }
  else
    match valid with
    | [] => fm1
    | v :: _ => selectSingleFragment v fm1

/-- `FragmentManager.clear_selection`. -/
def clearSelection (fm : FragmentManager) : FragmentManager :=
  clearAllSelections fm

/-- `FragmentManager.has_group_selection`: `len(self._group_selection) > 1`. -/
def hasGroupSelection (fm : FragmentManager) : Bool :=
  1 < fm.groupSelection.length

/-- `FragmentManager.has_single_selection`. -/
def hasSingleSelection (fm : FragmentManager) : Bool :=
  fm.selectedFragmentId.isSome

/-- `FragmentManager.get_selected_fragment_ids`. -/
def getSelectedFragmentIds (fm : FragmentManager) : List String :=
  if hasGroupSelection fm then fm.groupSelection
  else
    match fm.selectedFragmentId with
    | some i => [i]
    | none => []

/-- `FragmentManager.get_selected_fragments`:
`[self._fragments[fid] for fid in ids if fid in self._fragments]`. -/
def getSelectedFragments (fm : FragmentManager) : List Fragment :=
  (getSelectedFragmentIds fm).filterMap (fun fid => findFragment fm fid)

/-- `FragmentManager.set_selected_fragment` (legacy wrapper). -/
def setSelectedFragment (fid : Option String) (fm : FragmentManager) : FragmentManager :=
  match fid with
  | some i => selectSingleFragment i fm
  | none => clearSelection fm

/-- `FragmentManager.add_fragment_from_image`: insert the new fragment, then
auto-select it when it is the only one. -/
def addFragment (f : Fragment) (fm : FragmentManager) : FragmentManager :=
  let fm1 := { fm with fragments := fm.fragments ++ [f] }
  if fm1.fragments.length = 1 then setSelectedFragment (some f.id) fm1 else fm1

/-- `FragmentManager.remove_fragment`: drop the fragment; when it was the
single-selected one, fall back to the first remaining id (or `None`). -/
def removeFragment (fid : String) (fm : FragmentManager) : FragmentManager :=
  if containsId fm fid then
    let fm1 := { fm with fragments := fm.fragments.filter (fun f => f.id != fid) }
    if fm.selectedFragmentId == some fid then
      { fm1 with selectedFragmentId := fm1.fragments.head?.map Fragment.id }
    else fm1
  else fm

/-- Update the fragment stored under `fid` (dict-value mutation through
`self._fragments.get(fragment_id)`); a missing id is a silent no-op. -/
def updateFragment (fid : String) (g : Fragment → Fragment) (fm : FragmentManager) : FragmentManager :=
  { fm with fragments := fm.fragments.map (fun f => if f.id == fid then g f else f) }

/-- `FragmentManager.translate_fragment`. -/
def translateFragment (fid : String) (dx dy : ℚ) (fm : FragmentManager) : FragmentManager :=
  updateFragment fid (fun f => { f with x := f.x + dx, y := f.y + dy }) fm

/-- `FragmentManager.rotate_fragment`: `(rotation + angle) % 360`. -/
def rotateFragment (fid : String) (angle : ℚ) (fm : FragmentManager) : FragmentManager :=
  updateFragment fid (fun f => { f with rotation := pyMod (f.rotation + angle) 360 }) fm

/-- `FragmentManager.set_fragment_rotation`: `angle % 360`. -/
def setFragmentRotation (fid : String) (angle : ℚ) (fm : FragmentManager) : FragmentManager :=
  updateFragment fid (fun f => { f with rotation := pyMod angle 360 }) fm

/-- `FragmentManager.flip_fragment`. -/
def flipFragment (fid : String) (horizontal : Bool) (fm : FragmentManager) : FragmentManager :=
  updateFragment fid (fun f =>
    if horizontal then { f with flipHorizontal := !f.flipHorizontal }
    else { f with flipVertical := !f.flipVertical }) fm

/-- `FragmentManager.set_fragment_position`. -/
def setFragmentPosition (fid : String) (px py : ℚ) (fm : FragmentManager) : FragmentManager :=
  updateFragment fid (fun f => { f with x := px, y := py }) fm

/-- `FragmentManager.set_fragment_visibility`. -/
def setFragmentVisibility (fid : String) (vis : Bool) (fm : FragmentManager) : FragmentManager :=
  updateFragment fid (fun f => { f with visible := vis }) fm

/-- The arithmetic mean of the bounding-box centers of a fragment list
(`apply_group_rotation`'s first loop, `GroupManager._calculate_group_center`). -/
def groupCenter (t : TrigOracle) (sel : List Fragment) : ℚ × ℚ :=
  ((sel.map (fun f => (fragCenter t f).1)).sum / sel.length,
   (sel.map (fun f => (fragCenter t f).2)).sum / sel.length)

/-- The per-fragment body of the group-rotation loop (both
`FragmentManager.apply_group_rotation` and `GroupManager.rotate_group`):
read the current bounding-box center, add the angle to the fragment's own
rotation mod 360, orbit the old center around the group center by the
rotation matrix `(c, s)`, and re-anchor the top-left corner at the rotated
center using the new bounding box. -/
def rotateGroupStep (t : TrigOracle) (angle c s gcx gcy : ℚ) (f : Fragment) : Fragment :=
  let cx := f.x + (bbDims t f.rotation f.origW f.origH).1 / 2
  let cy := f.y + (bbDims t f.rotation f.origW f.origH).2 / 2
  let r1 := pyMod (f.rotation + angle) 360
  let relx := cx - gcx
  let rely := cy - gcy
  let ncx := gcx + (relx * c - rely * s)
  let ncy := gcy + (relx * s + rely * c)
  { f with
    rotation := r1,
    x := ncx - (bbDims t r1 f.origW f.origH).1 / 2,
    y := ncy - (bbDims t r1 f.origW f.origH).2 / 2 }

/-- `FragmentManager.apply_group_rotation`: no-op unless a group selection
with at least two resolvable fragments exists; otherwise rotate each selected
fragment in place and orbit it around the group center. -/
def applyGroupRotation (t : TrigOracle) (angle : ℚ) (fm : FragmentManager) : FragmentManager :=
  if hasGroupSelection fm then
    let sel := getSelectedFragments fm
    if sel.length < 2 then fm
    else
      let gc := groupCenter t sel
      { fm with fragments := fm.fragments.map (fun f =>
          if f ∈ sel then rotateGroupStep t angle (t.cos angle) (t.sin angle) gc.1 gc.2 f else f) }
  else fm

/-- `FragmentManager.apply_group_translation`. -/
def applyGroupTranslation (dx dy : ℚ) (fm : FragmentManager) : FragmentManager :=
  if hasGroupSelection fm then
    let sel := getSelectedFragments fm
    if sel.length < 2 then fm
    else
      { fm with fragments := fm.fragments.map (fun f =>
          if f ∈ sel then { f with x := f.x + dx, y := f.y + dy } else f) }
  else fm

/-- `GroupManager`'s state (`group_manager.py`). -/
structure GroupManager where
  selectedFragmentIds : List String

/-- `GroupManager.rotate_group`: mutates the passed fragment list's selected
members in place (modelled by returning the updated list). -/
def gmRotateGroup (t : TrigOracle) (gm : GroupManager) (frags : List Fragment) (angle : ℚ) : List Fragment :=
  if 1 < gm.selectedFragmentIds.length then
    let sel := frags.filter (fun f => gm.selectedFragmentIds.contains f.id)
    if sel.length < 2 then frags
    else
      let gc := groupCenter t sel
      frags.map (fun f =>
        if f ∈ sel then rotateGroupStep t angle (t.cos angle) (t.sin angle) gc.1 gc.2 f else f)
  else frags

/-- `GroupManager.translate_group`. -/
def gmTranslateGroup (gm : GroupManager) (frags : List Fragment) (dx dy : ℚ) : List Fragment :=
  if 1 < gm.selectedFragmentIds.length then
    let sel := frags.filter (fun f => gm.selectedFragmentIds.contains f.id)
    if sel.length < 2 then frags
    else
      frags.map (fun f => if f ∈ sel then { f with x := f.x + dx, y := f.y + dy } else f)
  else frags

/-- One RGBA pixel; channel values are the exact rationals carried by the
`uint8`/float arrays (stored `uint8` data is an integer in `[0,255]`). -/
structure Pix where
  r : ℚ
  g : ℚ
  b : ℚ
  a : ℚ
deriving DecidableEq

/-- `np.clip(q, 0, 255)`. -/
def clip255 (q : ℚ) : ℚ := min (max q 0) 255

/-- `np.clip(q, 0, 255).astype(np.uint8)`: clip, then truncate toward zero
(the clipped value is non-negative, so truncation is the floor). -/
def quant8 (q : ℚ) : ℚ := ((⌊clip255 q⌋ : ℤ) : ℚ)

/-- The per-pixel alpha blend of `_composite_fragment_corrected`
(`pyramidal_exporter.py` lines 595-616): `frag_alpha = a/255 * opacity`,
`out_alpha = frag_alpha + (1-frag_alpha)*comp_alpha`, and, where
`out_alpha > 0`, `out_rgb = (frag_alpha*frag_rgb + (1-frag_alpha)*comp_rgb)
/ out_alpha` (zero elsewhere); results are clipped and stored as `uint8`. -/
def blendPixel (src : Pix) (opacity : ℚ) (dst : Pix) : Pix :=
  let fa := src.a / 255 * opacity
  let ca := dst.a / 255
  let oa := fa + (1 - fa) * ca
  let mix : ℚ → ℚ → ℚ := fun sc dc => if 0 < oa then (fa * sc + (1 - fa) * dc) / oa else 0
  ⟨quant8 (mix src.r dst.r), quant8 (mix src.g dst.g), quant8 (mix src.b dst.b),
   quant8 (oa * 255)⟩

/-- The spec's per-pixel "over" operator, written from the spec's words
(§4.5-(6)) for comparison with `blendPixel`: `out_alpha = src_alpha +
dst_alpha·(1−src_alpha)`; `out_rgb = (src_alpha·src_rgb +
dst_alpha·(1−src_alpha)·dst_rgb) / out_alpha` where `out_alpha>0`, else `0`;
quantized to `uint8` the same way the code stores its result. -/
def specOverPixel (src : Pix) (opacity : ℚ) (dst : Pix) : Pix :=
  let sa := src.a / 255 * opacity
  let da := dst.a / 255
  let oa := sa + da * (1 - sa)
  let mix : ℚ → ℚ → ℚ := fun sc dc => if 0 < oa then (sa * sc + da * (1 - sa) * dc) / oa else 0
  ⟨quant8 (mix src.r dst.r), quant8 (mix src.g dst.g), quant8 (mix src.b dst.b),
   quant8 (oa * 255)⟩

/-- An image buffer: an `H×W×channels` `uint8` array (`channels` is 3 or 4).
Pixel reads outside `[0,width) × [0,height)` never occur in the modelled
code paths. -/
structure Image where
  width : ℕ
  height : ℕ
  channels : ℕ
  pix : ℤ → ℤ → Pix

/-- Reading a pixel as RGBA: a 3-channel image gets a synthesized
fully-opaque alpha channel (`np.full(..., 255)` in
`_composite_fragment_corrected`). -/
def pixRGBA (img : Image) (u v : ℤ) : Pix :=
  if img.channels = 3 then { img.pix u v with a := 255 } else img.pix u v

/-- `np.fliplr`. -/
def flipLR (img : Image) : Image :=
  { img with pix := fun u v => img.pix ((img.width : ℤ) - 1 - u) v }

/-- `np.flipud`. -/
def flipUD (img : Image) : Image :=
  { img with pix := fun u v => img.pix u ((img.height : ℤ) - 1 - v) }

/-- `_composite_fragment_corrected` (`pyramidal_exporter.py` lines 566-619):
clip the fragment to the canvas, then alpha-blend the overlapping rectangle
with `blendPixel`.  The source pixel for destination coordinate `(u,v)` is
`(u-x, v-y)` (the code's `src_x1 - dst_x1 = -x`). -/
def compositeFragment (comp : Image) (frag : Image) (x y : ℤ) (opacity : ℚ) : Image :=
  let srcX1 := max 0 (-x)
  let srcY1 := max 0 (-y)
  let srcX2 := min (frag.width : ℤ) ((comp.width : ℤ) - x)
  let srcY2 := min (frag.height : ℤ) ((comp.height : ℤ) - y)
  let dstX1 := max 0 x
  let dstY1 := max 0 y
  let dstX2 := dstX1 + (srcX2 - srcX1)
  let dstY2 := dstY1 + (srcY2 - srcY1)
  if srcX2 ≤ srcX1 ∨ srcY2 ≤ srcY1 then comp
  else
    { comp with pix := fun u v =>
        if dstX1 ≤ u ∧ u < dstX2 ∧ dstY1 ≤ v ∧ v < dstY2 then
          blendPixel (pixRGBA frag (u - x) (v - y)) opacity (comp.pix u v)
        else comp.pix u v }

/-- The exporter's external environment: file existence (`os.path.exists`),
the pyramidal image reader (`image_loader.py` is absent from the sources;
the reader is the external collaborator of spec §6), the `cv2.warpAffine`
resampling used by `_rotate_image_opencv` (an external library call), the
trig library, and whether the `tifffile` write raises. -/
structure ExporterEnv where
  trig : TrigOracle
  pathExists : String → Bool
  levelDims : String → ℕ → Option (ℤ × ℤ)
  loadImage : String → ℕ → Option Image
  rotateResample : Image → ℚ → Image
  saveOk : Bool

/-- `_rotate_image_opencv`: identity for near-zero angles, otherwise the
external affine resampling. -/
def rotateImageOpencv (env : ExporterEnv) (img : Image) (angle : ℚ) : Image :=
  if |angle| < 1/100 then img else env.rotateResample img angle

/-- `_calculate_transformed_dimensions` (`pyramidal_exporter.py` lines
438-451): dimensions of the rotated bounding box, truncated to `int`;
rotations within 0.01° of zero keep the input dimensions. -/
def calculateTransformedDimensions (t : TrigOracle) (w h : ℤ) (rotation : ℚ) : ℤ × ℤ :=
  if |rotation| < 1/100 then (w, h)
  else
    let c := |t.cos rotation|
    let s := |t.sin rotation|
    (pyInt ((w : ℚ) * c + (h : ℚ) * s), pyInt ((w : ℚ) * s + (h : ℚ) * c))

/-- `_load_and_transform_fragment_corrected`: load the level-`L` buffer (the
reader may fail), then flips, then rotation. -/
def loadAndTransformFragment (env : ExporterEnv) (f : Fragment) (level : ℕ) : Option Image :=
  (env.loadImage f.filePath level).map (fun img =>
    let i1 := if f.flipHorizontal then flipLR img else img
    let i2 := if f.flipVertical then flipUD i1 else i1
    if 1/100 < |f.rotation| then rotateImageOpencv env i2 f.rotation else i2)

/-- `_calculate_composite_bounds_at_level_corrected`: fold the per-fragment
footprints (level-`L` dimensions put through the rotated-box formula, origin
scaled by `2^level`) into a `(min_x, min_y, max_x, max_y)` union; fragments
whose dimensions are unavailable are skipped; `none` when no fragment
contributes. -/
def calcCompositeBoundsAtLevel (env : ExporterEnv) (frags : List Fragment) (level : ℕ) :
    Option (ℚ × ℚ × ℚ × ℚ) :=
  if frags.isEmpty then none
  else
    frags.foldl (fun acc f =>
      (env.levelDims f.filePath level).elim acc (fun wh =>
        let fd := calculateTransformedDimensions env.trig wh.1 wh.2 f.rotation
        let sx := f.x / 2 ^ level
        let sy := f.y / 2 ^ level
        acc.elim (some (sx, sy, sx + fd.1, sy + fd.2)) (fun prev =>
          some (min prev.1 sx, min prev.2.1 sy,
                max prev.2.2.1 (sx + fd.1), max prev.2.2.2 (sy + fd.2))))) none

/-- `_render_composite_at_level_corrected`: allocate a transparent RGBA
canvas sized by the bounds, then composite each fragment that loads
successfully at its scaled origin; `none` when the canvas would be empty. -/
def renderCompositeAtLevel (env : ExporterEnv) (frags : List Fragment) (level : ℕ)
    (bounds : ℚ × ℚ × ℚ × ℚ) : Option Image :=
  let w := pyInt (bounds.2.2.1 - bounds.1)
  let h := pyInt (bounds.2.2.2 - bounds.2.1)
  if w ≤ 0 ∨ h ≤ 0 then none
  else
    some (frags.foldl (fun canvas f =>
      (loadAndTransformFragment env f level).elim canvas (fun fi =>
        compositeFragment canvas fi (pyInt (f.x / 2 ^ level - bounds.1))
          (pyInt (f.y / 2 ^ level - bounds.2.1)) f.opacity))
      ⟨w.toNat, h.toNat, 4, fun _ _ => ⟨0, 0, 0, 0⟩⟩)

/-- The per-level outcome inside `_export_with_tifffile_corrected`'s loop:
bounds, then the rendered composite; `none` means the level is skipped. -/
def levelComposite (env : ExporterEnv) (frags : List Fragment) (level : ℕ) : Option Image :=
  (calcCompositeBoundsAtLevel env frags level).bind
    (fun b => renderCompositeAtLevel env frags level b)

/-- The `level_images` dict built by `_export_with_tifffile_corrected`:
levels that fail to produce bounds or a composite are skipped. -/
def processLevels (env : ExporterEnv) (frags : List Fragment) (levels : List ℕ) :
    List (ℕ × Image) :=
  levels.filterMap (fun L => (levelComposite env frags L).map (fun img => (L, img)))

/-- `compression_map.get(compression)` in `_save_pyramidal_tiff`. -/
def compressionMap (compression : String) : Option String :=
  if compression == "LZW" then some "lzw"
  else if compression == "JPEG" then some "jpeg"
  else if compression == "Deflate" then some "zlib"
  else none

/-- Insert into a sorted list of naturals. -/
def insertSorted (n : ℕ) : List ℕ → List ℕ
  | [] => [n]
  | m :: ms => if n ≤ m then n :: m :: ms else m :: insertSorted n ms

/-- `sorted(...)` on a list of naturals. -/
def sortNat (l : List ℕ) : List ℕ := l.foldr insertSorted []

/-- Dict lookup in the `level_images` association list. -/
def lookupImage (li : List (ℕ × Image)) (k : ℕ) : Option Image :=
  (li.find? (fun p => p.1 == k)).map Prod.snd

/-- `_rgba_to_rgb` with the default white background: flatten alpha onto the
background per channel (`alpha*rgb + (1-alpha)*background`, stored `uint8`),
yielding a 3-channel image; non-4-channel input is passed through as its
first three channels. -/
def rgbaToRgb (img : Image) : Image :=
  if img.channels = 4 then
    { img with
      channels := 3,
      pix := fun u v =>
        let p := img.pix u v
        let al := p.a / 255
        ⟨((⌊al * p.r + (1 - al) * 255⌋ : ℤ) : ℚ),
         ((⌊al * p.g + (1 - al) * 255⌋ : ℤ) : ℚ),
         ((⌊al * p.b + (1 - al) * 255⌋ : ℤ) : ℚ), 255⟩ }
  else { img with channels := min img.channels 3 }

/-- The pixel data `_save_pyramidal_tiff` hands to the TIFF encoder, page by
page: a single level is written as-is by `tifffile.imwrite`; the multi-level
loop converts RGBA pages to RGB when the compression is `jpeg`. -/
def pagesForEncoder (levelImages : List (ℕ × Image)) (compression : String) : List Image :=
  let comp := compressionMap compression
  let keys := (sortNat (levelImages.map Prod.fst)).dedup
  match keys with
  | [k] =>
    match lookupImage levelImages k with
    | some img => [img]
    | none => []
  | _ =>
    keys.filterMap (fun L => (lookupImage levelImages L).map (fun img =>
      if comp == some "jpeg" && img.channels == 4 then rgbaToRgb img else img))

/-- The observable outcome of an export call: the returned success flag, the
output files created, the pages handed to the encoder, and the fragment list
after the call (the exporter never mutates fragment pose). -/
structure ExportOutcome where
  success : Bool
  written : List String
  pages : List Image
  fragmentsAfter : List Fragment

/-- `_export_with_tifffile_corrected` (`pyramidal_exporter.py` lines
314-371): build `level_images`, fail when it is empty, otherwise write the
pyramid (`env.saveOk` models whether the `tifffile` write raises; reaching
the save step creates the output file). -/
def exportWithTifffile (env : ExporterEnv) (frags : List Fragment) (path : String)
    (levels : List ℕ) (compression : String) : ExportOutcome :=
  let li := processLevels env frags levels
  if li.isEmpty then ⟨false, [], [], frags⟩
  else ⟨env.saveOk, [path], pagesForEncoder li compression, frags⟩

/-- A backend strategy (`_export_with_pyvips` or
`_export_with_tifffile_corrected`), taking the visible fragments, the output
path, the selected levels and the compression. -/
def ExportBackend : Type :=
  List Fragment → String → List ℕ → String → ExportOutcome

/-- The visible-fragment filter of `export_pyramidal_tiff`:
`f.visible and f.file_path and os.path.exists(f.file_path)`. -/
def visibleWithFiles (env : ExporterEnv) (frags : List Fragment) : List Fragment :=
  frags.filter (fun f => f.visible && f.filePath != "" && env.pathExists f.filePath)

/-- `export_pyramidal_tiff` (`pyramidal_exporter.py` lines 56-103): validate
(visible fragments with resolvable files, non-empty level list, an available
export method), then dispatch to the selected backend; every validation
failure is caught and surfaces as `False` with no side effect. -/
def exportPyramidalTiff (env : ExporterEnv) (backend : Option ExportBackend)
    (frags : List Fragment) (path : String) (levels : List ℕ) (compression : String) :
    ExportOutcome :=
  let vis := visibleWithFiles env frags
  if vis.isEmpty then ⟨false, [], [], frags⟩
  else if levels.isEmpty then ⟨false, [], [], frags⟩
  else
    match backend with
    | none => ⟨false, [], [], frags⟩
    | some b => b vis path levels compression

/-- The public mutators of `FragmentManager`, as modelled above; a reachable
registry state is one produced by a sequence of these from a fresh manager. -/
inductive Op where
  | addFragment (f : Fragment)
  | selectSingle (fid : String)
  | selectGroupOp (ids : List String)
  | clearSelectionOp
  | setSelected (fid : Option String)
  | removeFragmentOp (fid : String)
  | translate (fid : String) (dx dy : ℚ)
  | rotate (fid : String) (angle : ℚ)
  | setRotation (fid : String) (angle : ℚ)
  | flip (fid : String) (horizontal : Bool)
  | setPosition (fid : String) (px py : ℚ)
  | setVisibility (fid : String) (vis : Bool)
  | groupRotation (t : TrigOracle) (angle : ℚ)
  | groupTranslation (dx dy : ℚ)

/-- Apply one mutator. -/
def applyOp (op : Op) (fm : FragmentManager) : FragmentManager :=
  match op with
  | .addFragment f => addFragment f fm
  | .selectSingle fid => selectSingleFragment fid fm
  | .selectGroupOp ids => selectGroup ids fm
  | .clearSelectionOp => clearSelection fm
  | .setSelected fid => setSelectedFragment fid fm
  | .removeFragmentOp fid => removeFragment fid fm
  | .translate fid dx dy => translateFragment fid dx dy fm
  | .rotate fid angle => rotateFragment fid angle fm
  | .setRotation fid angle => setFragmentRotation fid angle fm
  | .flip fid horizontal => flipFragment fid horizontal fm
  | .setPosition fid px py => setFragmentPosition fid px py fm
  | .setVisibility fid vis => setFragmentVisibility fid vis fm
  | .groupRotation t angle => applyGroupRotation t angle fm
  | .groupTranslation dx dy => applyGroupTranslation dx dy fm

/-- Run a sequence of mutators from the fresh manager. -/
def runOps (ops : List Op) : FragmentManager :=
  ops.foldl (fun fm op => applyOp op fm) initManager

/-- The ids of `ids` that resolve in the registry (`select_group`'s
`valid_ids`; clearing selections does not change which ids resolve). -/
def validIds (fm : FragmentManager) (ids : List String) : List String :=
  ids.filter (fun fid => containsId fm fid)

/-- The selection-exclusivity invariant of the registry: either no single
selection or no group selection is present (so no id is ever in both). -/
def SelectionExclusive (fm : FragmentManager) : Prop :=
  fm.selectedFragmentId = none ∨ fm.groupSelection = []

/-!  Concrete inputs used by witnesses and counterexamples. -/

/-- A trig oracle that is exact at ±90°. -/
def trigNinety : TrigOracle :=
  ⟨fun q => if q = 90 ∨ q = -90 then 0 else 1,
   fun q => if q = 90 then 1 else if q = -90 then -1 else 0⟩

/-- Output path used in concrete export runs. -/
def outPath : String := "out.tiff"

/-- The compression-mode strings the exporter accepts. -/
def compLZW : String := "LZW"

/-- The lossy compression-mode string. -/
def compJPEG : String := "JPEG"

/-- Id strings used in concrete registry states. -/
def idA : String := "a"

/-- Second id string. -/
def idB : String := "b"

/-- A concrete 4×2 fragment at the origin. -/
def fragA : Fragment :=
  ⟨idA, idA, outPath, 0, 0, 0, false, false, true, 1, 4, 2, false⟩

/-- A concrete 2×2 fragment at `(10, 0)`. -/
def fragB : Fragment :=
  ⟨idB, idB, outPath, 10, 0, 0, false, false, true, 1, 2, 2, false⟩

/-- A registry holding `fragA` and `fragB` with both group-selected. -/
def fmPair : FragmentManager := ⟨[fragA, fragB], none, [idA, idB]⟩

/-- A registry holding only `fragA`, with nothing selected. -/
def fmSolo : FragmentManager := ⟨[fragA], none, []⟩

/-- A registry holding only `fragA` whose group-selection list still carries
the stale id `idB` of a removed fragment. -/
def fmStale : FragmentManager := ⟨[fragA], none, [idA, idB]⟩

/-- A 1×1 four-channel image with constant pixel `(200,200,200,127)`. -/
def rgbaTestImage : Image := ⟨1, 1, 4, fun _ _ => ⟨200, 200, 200, 127⟩⟩

/-- A concrete exporter environment whose reader always yields
`rgbaTestImage` with 1×1 dimensions and whose TIFF write fails. -/
def envSaveFail : ExporterEnv :=
  ⟨⟨fun _ => 1, fun _ => 0⟩, fun _ => true, fun _ _ => some (1, 1),
   fun _ _ => some rgbaTestImage, fun img _ => img, false⟩

/-- C1: the claim states that every composited pixel satisfies the spec's
"over" operator `out_rgb = (src_alpha·src_rgb + dst_alpha·(1−src_alpha)·
dst_rgb)/out_alpha`.  The code's blend (`blendPixel`) omits the `dst_alpha`
factor on the destination term.  First conjunct: the canvas pixel
`(200,200,200,127)` is reachable (it is what compositing a half-opacity
solid pixel onto the fresh transparent canvas stores).  Second conjunct: on
that canvas pixel the code's blend of a fully transparent-black-biased
source differs from the spec operator (`rgb` 132 versus 66), so the claim
fails on the code. -/
theorem blendPixel_deviates_from_spec_over :
    blendPixel ⟨200, 200, 200, 255⟩ (1/2) ⟨0, 0, 0, 0⟩ = ⟨200, 200, 200, 127⟩ ∧
    blendPixel ⟨0, 0, 0, 128⟩ 1 ⟨200, 200, 200, 127⟩ ≠
      specOverPixel ⟨0, 0, 0, 128⟩ 1 ⟨200, 200, 200, 127⟩ := by
  constructor
  · simp only [blendPixel, quant8, clip255]
    norm_num
  · simp only [blendPixel, specOverPixel, quant8, clip255]
    norm_num

/-- C8: a fully-opaque source pixel (`opacity = 1`, alpha 255) does occlude
the destination (first conjunct), but compositing with `opacity = 0` does
not leave the destination unchanged: on the reachable canvas pixel
`(200,200,200,127)` the code divides the destination rgb by the destination
alpha, storing `(255,255,255,127)` (second and third conjuncts), so the
zero-opacity half of the claim fails on the code. -/
theorem blendPixel_occlusion_but_zero_opacity_mutates :
    blendPixel ⟨10, 20, 30, 255⟩ 1 ⟨200, 200, 200, 127⟩ = ⟨10, 20, 30, 255⟩ ∧
    blendPixel ⟨0, 0, 0, 128⟩ 0 ⟨200, 200, 200, 127⟩ = ⟨255, 255, 255, 127⟩ ∧
    blendPixel ⟨0, 0, 0, 128⟩ 0 ⟨200, 200, 200, 127⟩ ≠ ⟨200, 200, 200, 127⟩ := by
  refine ⟨?_, ?_, ?_⟩ <;> simp only [blendPixel, quant8, clip255] <;> norm_num

/-- C9: with lossy (JPEG) compression and an RGBA canvas, the single-level
path of `_save_pyramidal_tiff` hands the encoder the unflattened 4-channel
image (first conjunct), while the multi-level path flattens every page to 3
channels (second conjunct); `_rgba_to_rgb` itself performs the claimed
`alpha·rgb + (1−alpha)·background` flattening onto white (third and fourth
conjuncts).  The claim's "for single-level as well as multi-level exports"
therefore fails on the single-level path. -/
theorem pagesForEncoder_jpeg_flatten_only_multi_level :
    (pagesForEncoder [(0, rgbaTestImage)] compJPEG).map Image.channels = [4] ∧
    (pagesForEncoder [(0, rgbaTestImage), (1, rgbaTestImage)] compJPEG).map Image.channels
      = [3, 3] ∧
    (rgbaToRgb rgbaTestImage).pix 0 0 = ⟨227, 227, 227, 255⟩ ∧
    (rgbaToRgb rgbaTestImage).channels = 3 := by
  refine ⟨rfl, rfl, ?_, rfl⟩
  simp only [rgbaToRgb, rgbaTestImage]
  norm_num

/-- C4: when the selected-levels list is empty or no supplied fragment is
visible with a resolvable source file, `export_pyramidal_tiff` fails before
any output I/O: it returns `False`, creates no file, hands nothing to an
encoder, and leaves the fragment list unchanged — for any backend. -/
theorem exportPyramidalTiff_validation_fails_fast (env : ExporterEnv)
    (backend : Option ExportBackend) (frags : List Fragment) (path : String)
    (levels : List ℕ) (compression : String)
    (h : levels = [] ∨ visibleWithFiles env frags = []) :
    exportPyramidalTiff env backend frags path levels compression =
      ⟨false, [], [], frags⟩ := by
  unfold exportPyramidalTiff
  rcases h with h | h
  · subst h
    cases hv : (visibleWithFiles env frags).isEmpty <;> simp [hv]
  · simp [h]

/-- Witness for C4 at the concrete input `levels = []`. -/
theorem exportPyramidalTiff_validation_fails_fast_witness :
    (([] : List ℕ) = [] ∨ visibleWithFiles envSaveFail [fragA] = []) ∧
    exportPyramidalTiff envSaveFail none [fragA] outPath [] compLZW =
      ⟨false, [], [], [fragA]⟩ :=
  ⟨Or.inl rfl,
   exportPyramidalTiff_validation_fails_fast envSaveFail none [fragA] outPath [] compLZW
     (Or.inl rfl)⟩

/-- C6: when the current selection resolves to fewer than two valid
fragments, `apply_group_rotation`/`apply_group_translation` on the
`FragmentManager`, and `rotate_group`/`translate_group` on the
`GroupManager`, are complete no-ops: the registry (every fragment's
position, rotation, flip flags, and all remaining state) is returned
unchanged. -/
theorem group_transforms_noop_below_two (t : TrigOracle) (θ dx dy : ℚ)
    (fm : FragmentManager) (gm : GroupManager) (frags : List Fragment)
    (h1 : (getSelectedFragments fm).length < 2)
    (h2 : (frags.filter (fun f => gm.selectedFragmentIds.contains f.id)).length < 2) :
    applyGroupRotation t θ fm = fm ∧ applyGroupTranslation dx dy fm = fm ∧
    gmRotateGroup t gm frags θ = frags ∧ gmTranslateGroup gm frags dx dy = frags := by
  refine ⟨?_, ?_, ?_, ?_⟩
  · unfold applyGroupRotation
    cases hg : hasGroupSelection fm
    · simp [hg]
    · simp only [hg, if_true]
      rw [if_pos h1]
  · unfold applyGroupTranslation
    cases hg : hasGroupSelection fm
    · simp [hg]
    · simp only [hg, if_true]
      rw [if_pos h1]
  · unfold gmRotateGroup
    by_cases hg : 1 < gm.selectedFragmentIds.length
    · rw [if_pos hg, if_pos h2]
    · rw [if_neg hg]
  · unfold gmTranslateGroup
    by_cases hg : 1 < gm.selectedFragmentIds.length
    · rw [if_pos hg, if_pos h2]
    · rw [if_neg hg]

/-- Witness for C6: a registry with a single fragment and no selection, and
a group manager whose two selected ids resolve to a single fragment. -/
theorem group_transforms_noop_below_two_witness :
    ((getSelectedFragments fmSolo).length < 2 ∧
     (([fragA].filter (fun f => (GroupManager.mk [idA, idB]).selectedFragmentIds.contains f.id)).length < 2)) ∧
    (applyGroupRotation trigNinety 90 fmSolo = fmSolo ∧
     applyGroupTranslation 5 7 fmSolo = fmSolo ∧
     gmRotateGroup trigNinety (GroupManager.mk [idA, idB]) [fragA] 90 = [fragA] ∧
     gmTranslateGroup (GroupManager.mk [idA, idB]) [fragA] 5 7 = [fragA]) :=
  ⟨⟨by decide, by decide⟩,
   group_transforms_noop_below_two trigNinety 90 5 7 fmSolo (GroupManager.mk [idA, idB])
     [fragA] (by decide) (by decide)⟩

/-- In a registry whose fragment ids are distinct, `find?` on an id returns
exactly the member carrying that id. -/
theorem find_id_eq_of_nodup {l : List Fragment} {f : Fragment}
    (hnd : (l.map Fragment.id).Nodup) (hf : f ∈ l) :
    l.find? (fun g => g.id == f.id) = some f := by
  induction l with
  | nil => cases hf
  | cons h tl ih =>
    rw [List.map_cons, List.nodup_cons] at hnd
    rcases List.mem_cons.mp hf with rfl | hmem
    · rw [List.find?_cons_of_pos _ (by simp)]
    · have hne : h.id ≠ f.id := by
        intro he
        exact hnd.1 (he ▸ List.mem_map_of_mem Fragment.id hmem)
      rw [List.find?_cons_of_neg _ (by simp [hne])]
      exact ih hnd.2 hmem

/-- C10: for any selection state — including a group-selection list holding
stale ids of removed fragments — `get_selected_fragments` returns exactly
the members of the registry whose id is selected; the lookup is guarded by
the `fid in self._fragments` test, so it never fails on a missing id (the
function is total by construction). -/
theorem getSelectedFragments_exactly_present (fm : FragmentManager)
    (hnd : (fm.fragments.map Fragment.id).Nodup) (f : Fragment) :
    f ∈ getSelectedFragments fm ↔
      f ∈ fm.fragments ∧ f.id ∈ getSelectedFragmentIds fm := by
  unfold getSelectedFragments findFragment
  rw [List.mem_filterMap]
  constructor
  · rintro ⟨fid, hmem, hfind⟩
    have hp := List.find?_some hfind
    have hin := List.mem_of_find?_eq_some hfind
    rw [beq_iff_eq] at hp
    exact ⟨hin, hp ▸ hmem⟩
  · rintro ⟨hin, hid⟩
    exact ⟨f.id, hid, find_id_eq_of_nodup hnd hin⟩

/-- Witness for C10 on a registry whose group selection still carries the
stale id `idB` alongside the resolvable `idA`. -/
theorem getSelectedFragments_exactly_present_witness :
    ((fmStale.fragments.map Fragment.id).Nodup) ∧
    (fragA ∈ getSelectedFragments fmStale ↔
      fragA ∈ fmStale.fragments ∧ fragA.id ∈ getSelectedFragmentIds fmStale) :=
  ⟨by decide, getSelectedFragments_exactly_present fmStale (by decide) fragA⟩

/-- Folding the per-fragment composite step over a fragment list visits
exactly the fragments whose load succeeds: fragments whose
load-and-transform fails contribute nothing. -/
theorem foldl_load_filter (env : ExporterEnv) (level : ℕ)
    (g : Image → Fragment → Image → Image) :
    ∀ (l : List Fragment) (canvas : Image),
      l.foldl (fun c f => (loadAndTransformFragment env f level).elim c (g c f)) canvas =
      (l.filter (fun f => (loadAndTransformFragment env f level).isSome)).foldl
        (fun c f => (loadAndTransformFragment env f level).elim c (g c f)) canvas := by
  intro l
  induction l with
  | nil => intro c; rfl
  | cons f tl ih =>
    intro c
    rw [List.foldl_cons, List.filter_cons]
    cases hl : loadAndTransformFragment env f level with
    | none => simp [hl, ih]
    | some fi => simp [hl, ih]

/-- Rendering a level is unchanged by dropping the fragments whose load or
transform fails: they are skipped and compositing continues with the rest. -/
theorem renderComposite_skips_failed_loads (env : ExporterEnv) (frags : List Fragment)
    (level : ℕ) (bounds : ℚ × ℚ × ℚ × ℚ) :
    renderCompositeAtLevel env frags level bounds =
    renderCompositeAtLevel env
      (frags.filter (fun f => (loadAndTransformFragment env f level).isSome)) level bounds := by
  unfold renderCompositeAtLevel
  by_cases hc : (pyInt (bounds.2.2.1 - bounds.1) ≤ 0 ∨ pyInt (bounds.2.2.2 - bounds.2.1) ≤ 0)
  · rw [if_pos hc, if_pos hc]
  · rw [if_neg hc, if_neg hc]
    exact congrArg some
      (foldl_load_filter env level
        (fun c f fi => compositeFragment c fi (pyInt (f.x / 2 ^ level - bounds.1))
          (pyInt (f.y / 2 ^ level - bounds.2.1)) f.opacity) frags _)

/-- The levels that make it into `level_images` are exactly the selected
levels whose bounds and composite both succeed, in order: a failing level is
skipped, not fatal. -/
theorem processLevels_keys (env : ExporterEnv) (frags : List Fragment) (levels : List ℕ) :
    (processLevels env frags levels).map Prod.fst =
    levels.filter (fun L => (levelComposite env frags L).isSome) := by
  induction levels with
  | nil => rfl
  | cons L tl ih =>
    cases hl : levelComposite env frags L with
    | none =>
      simp [processLevels, List.filterMap_cons, hl, List.filter_cons] at ih ⊢
      exact ih
    | some img =>
      simp [processLevels, List.filterMap_cons, hl, List.filter_cons] at ih ⊢
      exact ih

/-- C5 (amended): a fragment whose load or transform fails at a level is
skipped and compositing continues with the remaining fragments (first
conjunct); a level for which no composite can be produced is itself skipped
(second conjunct); and the export fails if and only if no selected level
produces any composited image **or the final TIFF save step fails** (third
conjunct) — the original claim's "fails iff no level produces an image"
ignores the save step, see the counterexample. -/
theorem exportTifffile_partial_success_policy (env : ExporterEnv) (frags : List Fragment)
    (path : String) (levels : List ℕ) (compression : String) (level : ℕ)
    (bounds : ℚ × ℚ × ℚ × ℚ) :
    (renderCompositeAtLevel env frags level bounds =
      renderCompositeAtLevel env
        (frags.filter (fun f => (loadAndTransformFragment env f level).isSome)) level bounds) ∧
    ((processLevels env frags levels).map Prod.fst =
      levels.filter (fun L => (levelComposite env frags L).isSome)) ∧
    ((exportWithTifffile env frags path levels compression).success = true ↔
      (processLevels env frags levels ≠ [] ∧ env.saveOk = true)) := by
  refine ⟨renderComposite_skips_failed_loads env frags level bounds,
    processLevels_keys env frags levels, ?_⟩
  unfold exportWithTifffile
  cases hE : (processLevels env frags levels).isEmpty
  · have hne : processLevels env frags levels ≠ [] := by
      simpa [List.isEmpty_iff] using hE
    simp [hE, hne]
  · have heq : processLevels env frags levels = [] := by
      simpa [List.isEmpty_iff] using hE
    simp [hE, heq]

/-- In the concrete environment `envSaveFail`, the bounds of `fragA`'s
level-0 footprint are the unit square. -/
theorem calcBounds_fragA : calcCompositeBoundsAtLevel envSaveFail [fragA] 0 = some (0, 0, 1, 1) := by
  simp [calcCompositeBoundsAtLevel, envSaveFail, fragA, calculateTransformedDimensions]

/-- In `envSaveFail`, level 0 renders a composite. -/
theorem levelComposite_fragA_isSome : (levelComposite envSaveFail [fragA] 0).isSome = true := by
  rw [levelComposite, calcBounds_fragA]
  simp [renderCompositeAtLevel, pyInt]

/-- Counterexample for C5 as stated: in `envSaveFail` level 0 produces a
composited image, yet the export fails (the TIFF write fails), so "the
export fails if and only if no selected level produces any composited
image" is false at this input. -/
theorem exportTifffile_fails_despite_rendered_level :
    ¬ (((exportWithTifffile envSaveFail [fragA] outPath [0] compLZW).success = false) ↔
        processLevels envSaveFail [fragA] [0] = []) := by
  intro h
  have hlen : (processLevels envSaveFail [fragA] [0]).length = 1 := by
    have hmap := processLevels_keys envSaveFail [fragA] [0]
    have hlm : ((processLevels envSaveFail [fragA] [0]).map Prod.fst).length =
        ([0].filter (fun L => (levelComposite envSaveFail [fragA] L).isSome)).length := by
      rw [hmap]
    rw [List.length_map] at hlm
    rw [hlm]
    simp [List.filter_cons, levelComposite_fragA_isSome]
  have hne : processLevels envSaveFail [fragA] [0] ≠ [] := by
    intro hh
    rw [hh] at hlen
    exact absurd hlen (by simp)
  have hsucc : (exportWithTifffile envSaveFail [fragA] outPath [0] compLZW).success = false := by
    simp only [exportWithTifffile]
    split <;> rfl
  have hempty := h.mp hsucc
  rw [hempty] at hlen
  exact absurd hlen (by simp)

/-- C3: for any width, height and rotation, when the trig library computes
the true cosine/sine of the rotation (in radians, `rot·π/180`),
`_calculate_transformed_dimensions` returns exactly `(width, height)` when
the rotation is within 0.01 degrees of zero, and otherwise the standard
rotated-rectangle bound `w' = |w·cos θ| + |h·sin θ|`,
`h' = |w·sin θ| + |h·cos θ|`, truncated to the function's declared integer
return type. -/
theorem calculateTransformedDimensions_bound
    (t : TrigOracle) (w h : ℤ) (rot : ℚ) (hw : 0 ≤ w) (hh : 0 ≤ h)
    (hc : ((t.cos rot : ℚ) : ℝ) = Real.cos ((rot : ℝ) * Real.pi / 180))
    (hs : ((t.sin rot : ℚ) : ℝ) = Real.sin ((rot : ℝ) * Real.pi / 180)) :
    (|rot| < 1/100 → calculateTransformedDimensions t w h rot = (w, h)) ∧
    (1/100 ≤ |rot| →
      ((calculateTransformedDimensions t w h rot).1 =
        ⌊|(w : ℝ) * Real.cos ((rot : ℝ) * Real.pi / 180)| +
          |(h : ℝ) * Real.sin ((rot : ℝ) * Real.pi / 180)|⌋ ∧
       (calculateTransformedDimensions t w h rot).2 =
        ⌊|(w : ℝ) * Real.sin ((rot : ℝ) * Real.pi / 180)| +
          |(h : ℝ) * Real.cos ((rot : ℝ) * Real.pi / 180)|⌋)) := by
  have hwq : (0:ℚ) ≤ (w:ℚ) := by exact_mod_cast hw
  have hhq : (0:ℚ) ≤ (h:ℚ) := by exact_mod_cast hh
  have hwr : (0:ℝ) ≤ (w:ℝ) := by exact_mod_cast hw
  have hhr : (0:ℝ) ≤ (h:ℝ) := by exact_mod_cast hh
  constructor
  · intro hlt
    simp only [calculateTransformedDimensions]
    rw [if_pos hlt]
  · intro hge
    have hlt : ¬ |rot| < 1/100 := not_lt.mpr hge
    simp only [calculateTransformedDimensions]
    rw [if_neg hlt]
    constructor
    · have hnn : (0:ℚ) ≤ (w:ℚ) * |t.cos rot| + (h:ℚ) * |t.sin rot| :=
        add_nonneg (mul_nonneg hwq (abs_nonneg _)) (mul_nonneg hhq (abs_nonneg _))
      calc ((pyInt ((w:ℚ) * |t.cos rot| + (h:ℚ) * |t.sin rot|),
              pyInt ((w:ℚ) * |t.sin rot| + (h:ℚ) * |t.cos rot|)).1 : ℤ)
          = ⌊((w:ℚ) * |t.cos rot| + (h:ℚ) * |t.sin rot| : ℚ)⌋ := by
            simp only [pyInt]
            rw [if_pos hnn]
        _ = ⌊(((w:ℚ) * |t.cos rot| + (h:ℚ) * |t.sin rot| : ℚ) : ℝ)⌋ := (Rat.floor_cast _).symm
        _ = ⌊|(w : ℝ) * Real.cos ((rot : ℝ) * Real.pi / 180)| +
              |(h : ℝ) * Real.sin ((rot : ℝ) * Real.pi / 180)|⌋ := by
            congr 1
            push_cast
            rw [hc, hs, abs_mul, abs_mul, abs_of_nonneg hwr, abs_of_nonneg hhr]
    · have hnn : (0:ℚ) ≤ (w:ℚ) * |t.sin rot| + (h:ℚ) * |t.cos rot| :=
        add_nonneg (mul_nonneg hwq (abs_nonneg _)) (mul_nonneg hhq (abs_nonneg _))
      calc ((pyInt ((w:ℚ) * |t.cos rot| + (h:ℚ) * |t.sin rot|),
              pyInt ((w:ℚ) * |t.sin rot| + (h:ℚ) * |t.cos rot|)).2 : ℤ)
          = ⌊((w:ℚ) * |t.sin rot| + (h:ℚ) * |t.cos rot| : ℚ)⌋ := by
            simp only [pyInt]
            rw [if_pos hnn]
        _ = ⌊(((w:ℚ) * |t.sin rot| + (h:ℚ) * |t.cos rot| : ℚ) : ℝ)⌋ := (Rat.floor_cast _).symm
        _ = ⌊|(w : ℝ) * Real.sin ((rot : ℝ) * Real.pi / 180)| +
              |(h : ℝ) * Real.cos ((rot : ℝ) * Real.pi / 180)|⌋ := by
            congr 1
            push_cast
            rw [hc, hs, abs_mul, abs_mul, abs_of_nonneg hwr, abs_of_nonneg hhr]

/-- Witness for C3 at `w = 3, h = 2, rot = 90°` with the oracle that is
exact at ±90°. -/
theorem calculateTransformedDimensions_bound_witness :
    ((0:ℤ) ≤ 3) ∧ ((0:ℤ) ≤ 2) ∧
    (((trigNinety.cos 90 : ℚ) : ℝ) = Real.cos (((90:ℚ) : ℝ) * Real.pi / 180)) ∧
    (((trigNinety.sin 90 : ℚ) : ℝ) = Real.sin (((90:ℚ) : ℝ) * Real.pi / 180)) ∧
    ((1:ℚ)/100 ≤ |(90:ℚ)|) ∧
    ((calculateTransformedDimensions trigNinety 3 2 90).1 =
      ⌊|((3:ℤ) : ℝ) * Real.cos (((90:ℚ) : ℝ) * Real.pi / 180)| +
        |((2:ℤ) : ℝ) * Real.sin (((90:ℚ) : ℝ) * Real.pi / 180)|⌋ ∧
     (calculateTransformedDimensions trigNinety 3 2 90).2 =
      ⌊|((3:ℤ) : ℝ) * Real.sin (((90:ℚ) : ℝ) * Real.pi / 180)| +
        |((2:ℤ) : ℝ) * Real.cos (((90:ℚ) : ℝ) * Real.pi / 180)|⌋) := by
  have h90 : ((90:ℚ) : ℝ) * Real.pi / 180 = Real.pi / 2 := by
    push_cast
    ring
  have hc : ((trigNinety.cos 90 : ℚ) : ℝ) = Real.cos (((90:ℚ) : ℝ) * Real.pi / 180) := by
    rw [h90, Real.cos_pi_div_two]
    norm_num [trigNinety]
  have hs : ((trigNinety.sin 90 : ℚ) : ℝ) = Real.sin (((90:ℚ) : ℝ) * Real.pi / 180) := by
    rw [h90, Real.sin_pi_div_two]
    norm_num [trigNinety]
  exact ⟨by norm_num, by norm_num, hc, hs, by norm_num,
    (calculateTransformedDimensions_bound trigNinety 3 2 90 (by norm_num) (by norm_num)
      hc hs).2 (by norm_num)⟩

/-- Clearing all selections establishes the exclusivity invariant. -/
theorem inv_clearAll (fm : FragmentManager) : SelectionExclusive (clearAllSelections fm) :=
  Or.inl rfl

/-- `select_single_fragment` establishes the exclusivity invariant. -/
theorem inv_selectSingle (fid : String) (fm : FragmentManager) :
    SelectionExclusive (selectSingleFragment fid fm) := by
  simp only [selectSingleFragment]
  cases hcc : containsId (clearAllSelections fm) fid
  · simp only [Bool.false_eq_true, if_false]
    exact Or.inl rfl
  · rw [if_pos rfl]
    exact Or.inr rfl

/-- `select_group` establishes the exclusivity invariant. -/
theorem inv_selectGroup (ids : List String) (fm : FragmentManager) :
    SelectionExclusive (selectGroup ids fm) := by
  simp only [selectGroup]
  split
  · exact Or.inl rfl
  · split
    · exact Or.inl rfl
    · exact inv_selectSingle _ _

/-- `set_selected_fragment` establishes the exclusivity invariant. -/
theorem inv_setSelected (fid : Option String) (fm : FragmentManager) :
    SelectionExclusive (setSelectedFragment fid fm) := by
  cases fid with
  | none => exact Or.inl rfl
  | some i => exact inv_selectSingle i fm

/-- `add_fragment_from_image` preserves the exclusivity invariant. -/
theorem inv_addFragment (f : Fragment) (fm : FragmentManager)
    (h : SelectionExclusive fm) : SelectionExclusive (addFragment f fm) := by
  simp only [addFragment]
  split
  · exact inv_setSelected _ _
  · exact h

/-- `remove_fragment` preserves the exclusivity invariant: the single-selection
fallback only runs in a state where the group selection is already empty. -/
theorem inv_removeFragment (fid : String) (fm : FragmentManager)
    (h : SelectionExclusive fm) : SelectionExclusive (removeFragment fid fm) := by
  simp only [removeFragment]
  split
  · split
    · next hbeq =>
      rcases h with h | h
      · rw [h] at hbeq
        simp at hbeq
      · exact Or.inr h
    · exact h
  · exact h

/-- `apply_group_rotation` preserves the exclusivity invariant (it never
touches selection state). -/
theorem inv_groupRotation (t : TrigOracle) (angle : ℚ) (fm : FragmentManager)
    (h : SelectionExclusive fm) : SelectionExclusive (applyGroupRotation t angle fm) := by
  simp only [applyGroupRotation]
  split
  · split
    · exact h
    · exact h
  · exact h

/-- `apply_group_translation` preserves the exclusivity invariant. -/
theorem inv_groupTranslation (dx dy : ℚ) (fm : FragmentManager)
    (h : SelectionExclusive fm) : SelectionExclusive (applyGroupTranslation dx dy fm) := by
  simp only [applyGroupTranslation]
  split
  · split
    · exact h
    · exact h
  · exact h

/-- Every public mutator preserves the exclusivity invariant. -/
theorem inv_applyOp (op : Op) (fm : FragmentManager)
    (h : SelectionExclusive fm) : SelectionExclusive (applyOp op fm) := by
  cases op with
  | addFragment f => exact inv_addFragment f fm h
  | selectSingle fid => exact inv_selectSingle fid fm
  | selectGroupOp ids => exact inv_selectGroup ids fm
  | clearSelectionOp => exact Or.inl rfl
  | setSelected fid => exact inv_setSelected fid fm
  | removeFragmentOp fid => exact inv_removeFragment fid fm h
  | translate fid dx dy => exact h
  | rotate fid angle => exact h
  | setRotation fid angle => exact h
  | flip fid horizontal => exact h
  | setPosition fid px py => exact h
  | setVisibility fid vis => exact h
  | groupRotation t angle => exact inv_groupRotation t angle fm h
  | groupTranslation dx dy => exact inv_groupTranslation dx dy fm h

/-- Every reachable registry state satisfies the exclusivity invariant. -/
theorem inv_runOps (ops : List Op) : SelectionExclusive (runOps ops) := by
  suffices h : ∀ fm, SelectionExclusive fm →
      SelectionExclusive (ops.foldl (fun s op => applyOp op s) fm) from
    h initManager (Or.inl rfl)
  induction ops with
  | nil => intro fm h; exact h
  | cons op tl ih =>
    intro fm h
    exact ih _ (inv_applyOp op fm h)

/-- Which ids resolve is unchanged by clearing selections. -/
theorem containsId_clearAll (fm : FragmentManager) (i : String) :
    containsId (clearAllSelections fm) i = containsId fm i := by
  simp only [containsId, findFragment, clearAllSelections, List.find?_map]
  have hpred : ((fun f : Fragment => f.id == i) ∘ fun f : Fragment => { f with selected := false })
      = (fun f : Fragment => f.id == i) := rfl
  rw [hpred]
  cases List.find? (fun f : Fragment => f.id == i) fm.fragments <;> rfl

/-- `select_group` with exactly one valid id degrades to a single selection
on that id. -/
theorem selectGroup_degrade_one (ids : List String) (fm : FragmentManager) (v : String)
    (hv : validIds fm ids = [v]) :
    (selectGroup ids fm).selectedFragmentId = some v ∧
      (selectGroup ids fm).groupSelection = [] := by
  have hfun : (fun fid => containsId (clearAllSelections fm) fid) =
      (fun fid => containsId fm fid) := funext (fun i => containsId_clearAll fm i)
  have hvalid : ids.filter (fun fid => containsId (clearAllSelections fm) fid) = [v] := by
    rw [hfun]
    exact hv
  have hvmem : containsId fm v = true := by
    have hmem : v ∈ ids.filter (fun fid => containsId fm fid) := by
      rw [show ids.filter (fun fid => containsId fm fid) = [v] from hv]
      exact List.mem_singleton_self v
    exact (List.mem_filter.mp hmem).2
  simp only [selectGroup]
  rw [hvalid]
  rw [if_neg (by simp)]
  simp only [selectSingleFragment]
  rw [containsId_clearAll, containsId_clearAll, hvmem]
  rw [if_pos rfl]
  exact ⟨rfl, rfl⟩

/-- `select_group` with no valid id degrades to a cleared selection. -/
theorem selectGroup_degrade_zero (ids : List String) (fm : FragmentManager)
    (hv : validIds fm ids = []) :
    (selectGroup ids fm).selectedFragmentId = none ∧
      (selectGroup ids fm).groupSelection = [] := by
  have hfun : (fun fid => containsId (clearAllSelections fm) fid) =
      (fun fid => containsId fm fid) := funext (fun i => containsId_clearAll fm i)
  have hvalid : ids.filter (fun fid => containsId (clearAllSelections fm) fid) = [] := by
    rw [hfun]
    exact hv
  simp only [selectGroup]
  rw [hvalid]
  rw [if_neg (by simp)]
  exact ⟨rfl, rfl⟩

/-- C7: in every reachable registry state no id is simultaneously the
single-selected id and a member of the group selection (first conjunct); a
`select_group` whose id list resolves to exactly one valid id leaves the
registry single-selected on that id (second conjunct), and one resolving to
no valid id leaves it with no selection (third conjunct). -/
theorem selection_exclusive_and_degrade (ops : List Op) (fm : FragmentManager)
    (ids : List String) :
    (∀ x, ¬ ((runOps ops).selectedFragmentId = some x ∧ x ∈ (runOps ops).groupSelection)) ∧
    (∀ v, validIds fm ids = [v] →
      (selectGroup ids fm).selectedFragmentId = some v ∧
        (selectGroup ids fm).groupSelection = []) ∧
    (validIds fm ids = [] →
      (selectGroup ids fm).selectedFragmentId = none ∧
        (selectGroup ids fm).groupSelection = []) := by
  refine ⟨?_, fun v hv => selectGroup_degrade_one ids fm v hv,
    fun hv => selectGroup_degrade_zero ids fm hv⟩
  intro x hx
  rcases inv_runOps ops with h | h
  · rw [h] at hx
    exact absurd hx.1 (by simp)
  · rw [h] at hx
    exact absurd hx.2 (by simp)

/-- Witness for C7: the empty run, and a two-id list over a one-fragment
registry resolving to the single valid id `idA`. -/
theorem selection_exclusive_and_degrade_witness :
    (validIds fmSolo [idA, idB] = [idA]) ∧
    ((∀ x, ¬ ((runOps []).selectedFragmentId = some x ∧ x ∈ (runOps []).groupSelection)) ∧
     ((selectGroup [idA, idB] fmSolo).selectedFragmentId = some idA ∧
      (selectGroup [idA, idB] fmSolo).groupSelection = [])) := by
  have h := selection_exclusive_and_degrade [] fmSolo [idA, idB]
  exact ⟨by decide, h.1, h.2.1 idA (by decide)⟩

/-- Value of Python's `%` by 360 on an argument lying in
`[360z, 360(z+1))`. -/
theorem pyMod_eq (a : ℚ) (z : ℤ) (hlo : (z : ℚ) * 360 ≤ a) (hhi : a < ((z : ℚ) + 1) * 360) :
    pyMod a 360 = a - 360 * (z : ℚ) := by
  unfold pyMod
  have hz : ⌊a / 360⌋ = z := by
    rw [Int.floor_eq_iff]
    constructor
    · rw [le_div_iff₀ (by norm_num : (0:ℚ) < 360)]
      linarith
    · rw [div_lt_iff₀ (by norm_num : (0:ℚ) < 360)]
      linarith
  rw [hz]

/-- Adding 90° and subtracting it again under `% 360` restores a rotation
that starts normalized into `[0, 360)`. -/
theorem pyMod_roundtrip_90 (r : ℚ) (h0 : 0 ≤ r) (h1 : r < 360) :
    pyMod (pyMod (r + 90) 360 + -90) 360 = r := by
  by_cases hc : r < 270
  · rw [pyMod_eq (r + 90) 0 (by push_cast; linarith) (by push_cast; linarith)]
    rw [show r + 90 - 360 * ((0:ℤ) : ℚ) + -90 = r by push_cast; ring]
    rw [pyMod_eq r 0 (by push_cast; linarith) (by push_cast; linarith)]
    push_cast
    ring
  · rw [pyMod_eq (r + 90) 1 (by push_cast; linarith) (by push_cast; linarith)]
    rw [show r + 90 - 360 * ((1:ℤ) : ℚ) + -90 = r - 360 by push_cast; ring]
    rw [pyMod_eq (r - 360) (-1) (by push_cast; linarith) (by push_cast; linarith)]
    push_cast
    ring

/-- On a registry holding exactly two fragments with distinct ids, both
group-selected, `get_selected_fragments` returns both fragments in order. -/
theorem gsf_pair (A B : Fragment) (hid : A.id ≠ B.id) :
    getSelectedFragments ⟨[A, B], none, [A.id, B.id]⟩ = [A, B] := by
  have hb : (A.id == B.id) = false := by
    simp [hid]
  simp [getSelectedFragments, getSelectedFragmentIds, hasGroupSelection, findFragment,
    List.find?, hb]

/-- `apply_group_rotation` on a two-fragment group applies the per-fragment
rotation step to each fragment, around the group center. -/
theorem agr_pair (t : TrigOracle) (θ : ℚ) (A B : Fragment) (gsel : List String)
    (hid : A.id ≠ B.id) (hg : gsel = [A.id, B.id]) :
    applyGroupRotation t θ ⟨[A, B], none, gsel⟩ =
      ⟨[rotateGroupStep t θ (t.cos θ) (t.sin θ)
          (groupCenter t [A, B]).1 (groupCenter t [A, B]).2 A,
        rotateGroupStep t θ (t.cos θ) (t.sin θ)
          (groupCenter t [A, B]).1 (groupCenter t [A, B]).2 B],
       none, gsel⟩ := by
  subst hg
  have hsel : getSelectedFragments ⟨[A, B], none, [A.id, B.id]⟩ = [A, B] :=
    gsf_pair A B hid
  simp only [applyGroupRotation, hsel]
  rw [if_pos (show hasGroupSelection ⟨[A, B], none, [A.id, B.id]⟩ = true from rfl)]
  rw [if_neg (by norm_num : ¬ ([A, B].length < 2))]
  simp only [List.map_cons, List.map_nil]
  rw [if_pos (List.mem_cons_self A [B]), if_pos (by simp : B ∈ [A, B])]

/-- Rotating a two-fragment group by 90° (exact rotation matrix `(0, 1)`)
leaves the group center unchanged: the mean of the orbited centers is the
original center. -/
theorem groupCenter_pair_rot90 (t : TrigOracle) (θ : ℚ) (A B : Fragment) :
    groupCenter t [rotateGroupStep t θ 0 1 (groupCenter t [A, B]).1 (groupCenter t [A, B]).2 A,
                   rotateGroupStep t θ 0 1 (groupCenter t [A, B]).1 (groupCenter t [A, B]).2 B]
      = groupCenter t [A, B] := by
  simp only [groupCenter, fragCenter, rotateGroupStep, List.map_cons, List.map_nil,
    List.sum_cons, List.sum_nil, List.length_cons, List.length_nil]
  rw [Prod.mk.injEq]
  push_cast
  constructor <;> ring

/-- The per-fragment +90°/−90° rotation steps cancel: around any group
center, with the exact ±90° rotation matrices, position and rotation are
restored exactly for a fragment whose rotation starts in `[0, 360)`. -/
theorem step_roundtrip (t : TrigOracle) (gx gy : ℚ) (A : Fragment)
    (h0 : 0 ≤ A.rotation) (h1 : A.rotation < 360) :
    rotateGroupStep t (-90) 0 (-1) gx gy (rotateGroupStep t 90 0 1 gx gy A) = A := by
  obtain ⟨aid, aname, apath, ax, ay, arot, afh, afv, avis, aop, aw, ah, asel⟩ := A
  have hrot : pyMod (pyMod (arot + 90) 360 + -90) 360 = arot := by
    exact pyMod_roundtrip_90 arot h0 h1
  simp only [rotateGroupStep]
  rw [hrot]
  congr 1 <;> ring

/-- C2: on a two-fragment group (distinct ids, rotations normalized into
`[0, 360)`, any poses), applying the group rotation by +90° and then by
−90° restores the registry exactly — in particular every fragment's
position and rotation — provided the trig library is exact at ±90° (the
hypotheses tie the oracle to `Real.cos`/`Real.sin` of the radian angle; in
the exact-rational model the restoration is exact, hence within any
tolerance ε). -/
theorem groupRotation_roundtrip (t : TrigOracle) (A B : Fragment)
    (hid : A.id ≠ B.id)
    (hA0 : 0 ≤ A.rotation) (hA1 : A.rotation < 360)
    (hB0 : 0 ≤ B.rotation) (hB1 : B.rotation < 360)
    (hc1 : ((t.cos 90 : ℚ) : ℝ) = Real.cos ((90 : ℝ) * Real.pi / 180))
    (hs1 : ((t.sin 90 : ℚ) : ℝ) = Real.sin ((90 : ℝ) * Real.pi / 180))
    (hc2 : ((t.cos (-90) : ℚ) : ℝ) = Real.cos ((-90 : ℝ) * Real.pi / 180))
    (hs2 : ((t.sin (-90) : ℚ) : ℝ) = Real.sin ((-90 : ℝ) * Real.pi / 180)) :
    applyGroupRotation t (-90) (applyGroupRotation t 90 ⟨[A, B], none, [A.id, B.id]⟩) =
      ⟨[A, B], none, [A.id, B.id]⟩ := by
  have hcos90 : t.cos 90 = 0 := by
    have h : ((t.cos 90 : ℚ) : ℝ) = 0 := by
      rw [hc1, show (90:ℝ) * Real.pi / 180 = Real.pi / 2 by ring, Real.cos_pi_div_two]
    exact_mod_cast h
  have hsin90 : t.sin 90 = 1 := by
    have h : ((t.sin 90 : ℚ) : ℝ) = 1 := by
      rw [hs1, show (90:ℝ) * Real.pi / 180 = Real.pi / 2 by ring, Real.sin_pi_div_two]
    exact_mod_cast h
  have hcosm90 : t.cos (-90) = 0 := by
    have h : ((t.cos (-90) : ℚ) : ℝ) = 0 := by
      rw [hc2, show (-90:ℝ) * Real.pi / 180 = -(Real.pi / 2) by ring, Real.cos_neg,
        Real.cos_pi_div_two]
    exact_mod_cast h
  have hsinm90 : t.sin (-90) = -1 := by
    have h : ((t.sin (-90) : ℚ) : ℝ) = -1 := by
      rw [hs2, show (-90:ℝ) * Real.pi / 180 = -(Real.pi / 2) by ring, Real.sin_neg,
        Real.sin_pi_div_two]
    exact_mod_cast h
  rw [agr_pair t 90 A B [A.id, B.id] hid rfl]
  rw [hcos90, hsin90]
  rw [agr_pair t (-90)
    (rotateGroupStep t 90 0 1 (groupCenter t [A, B]).1 (groupCenter t [A, B]).2 A)
    (rotateGroupStep t 90 0 1 (groupCenter t [A, B]).1 (groupCenter t [A, B]).2 B)
    [A.id, B.id] hid rfl]
  rw [hcosm90, hsinm90]
  rw [groupCenter_pair_rot90 t 90 A B]
  rw [FragmentManager.mk.injEq]
  refine ⟨?_, rfl, rfl⟩
  rw [List.cons.injEq, List.cons.injEq]
  exact ⟨step_roundtrip t _ _ A hA0 hA1, step_roundtrip t _ _ B hB0 hB1, rfl⟩

/-- Witness for C2 on the concrete fragments `fragA`, `fragB` with the
oracle that is exact at ±90°. -/
theorem groupRotation_roundtrip_witness :
    (fragA.id ≠ fragB.id ∧ 0 ≤ fragA.rotation ∧ fragA.rotation < 360 ∧
      0 ≤ fragB.rotation ∧ fragB.rotation < 360) ∧
    applyGroupRotation trigNinety (-90)
        (applyGroupRotation trigNinety 90 ⟨[fragA, fragB], none, [fragA.id, fragB.id]⟩) =
      ⟨[fragA, fragB], none, [fragA.id, fragB.id]⟩ := by
  have hc1 : ((trigNinety.cos 90 : ℚ) : ℝ) = Real.cos ((90 : ℝ) * Real.pi / 180) := by
    rw [show (90:ℝ) * Real.pi / 180 = Real.pi / 2 by ring, Real.cos_pi_div_two]
    norm_num [trigNinety]
  have hs1 : ((trigNinety.sin 90 : ℚ) : ℝ) = Real.sin ((90 : ℝ) * Real.pi / 180) := by
    rw [show (90:ℝ) * Real.pi / 180 = Real.pi / 2 by ring, Real.sin_pi_div_two]
    norm_num [trigNinety]
  have hc2 : ((trigNinety.cos (-90) : ℚ) : ℝ) = Real.cos ((-90 : ℝ) * Real.pi / 180) := by
    rw [show (-90:ℝ) * Real.pi / 180 = -(Real.pi / 2) by ring, Real.cos_neg,
      Real.cos_pi_div_two]
    norm_num [trigNinety]
  have hs2 : ((trigNinety.sin (-90) : ℚ) : ℝ) = Real.sin ((-90 : ℝ) * Real.pi / 180) := by
    rw [show (-90:ℝ) * Real.pi / 180 = -(Real.pi / 2) by ring, Real.sin_neg,
      Real.sin_pi_div_two]
    norm_num [trigNinety]
  refine ⟨⟨by decide, by norm_num [fragA], by norm_num [fragA], by norm_num [fragB],
    by norm_num [fragB]⟩, ?_⟩
  exact groupRotation_roundtrip trigNinety fragA fragB (by decide)
    (by norm_num [fragA]) (by norm_num [fragA]) (by norm_num [fragB]) (by norm_num [fragB])
    hc1 hs1 hc2 hs2

end Stitcher
